import Mathlib

/-
  Verification of the valid-forms client-side form-validation helper
  (src/form-validation.js) against its natural-language specification.

  Strings are modelled as lists of characters (JsStr), mirroring the
  per-character JavaScript string operations the source uses.  Fallible
  JavaScript code (property access on undefined or null, missing table
  keys) is modelled with Option, where none stands for a thrown error.
-/

/-- Model of a JavaScript string: a sequence of characters. -/
abbrev JsStr := List Char

/-- JS String.prototype.split with a single-character separator.
    Mirrors JS semantics: "".split(c) = [""], separators at the ends
    produce empty segments. -/
def jsSplit (c : Char) : JsStr → List JsStr
  | [] => [[]]
  | x :: xs =>
    match jsSplit c xs with
    | [] => [[]]
    | y :: ys => if x = c then [] :: y :: ys else (x :: y) :: ys

/-- JS String.prototype.substring(start, end): both indices are clamped
    into [0, length] and swapped when start exceeds end. -/
def jsSubstring (s : JsStr) (start stop : Int) : JsStr :=
  let n : Int := s.length
  let a := (min (max start 0) n).toNat
  let b := (min (max stop 0) n).toNat
  (s.drop (min a b)).take (max a b - min a b)

/-- JS String.prototype.substring(start) with the end index omitted. -/
def jsSubstrFrom (s : JsStr) (start : Int) : JsStr :=
  jsSubstring s start s.length

/-- JS String.prototype.lastIndexOf for a single character: index of the
    last occurrence, or -1 when absent. -/
def jsLastIndexOf (c : Char) : JsStr → Int
  | [] => -1
  | x :: xs =>
    let r := jsLastIndexOf c xs
    if r ≥ 0 then r + 1 else if x = c then 0 else -1

/-- JS s.indexOf(sub) >= 0: does sub occur anywhere in s as a contiguous
    substring. -/
def containsSub (s sub : JsStr) : Bool :=
  match s with
  | [] => sub.isPrefixOf ([] : JsStr)
  | _ :: xs => sub.isPrefixOf s || containsSub xs sub

/-- JS ToNumber on the argument strings produced by class tokens:
    a nonempty all-digit string is its decimal value, anything else is
    treated as NaN (none).  Faithful for strings without signs, decimal
    points, exponents or leading whitespace, which is the shape hyphen
    segments have. -/
def jsToNum (s : JsStr) : Option Nat :=
  if s ≠ [] ∧ s.all (·.isDigit) then
    some (s.foldl (fun acc c => acc * 10 + (c.toNat - 48)) 0)
  else none

/-- JS relational comparison a <= b on two strings: lexicographic by
    character code, defined as the negation of b < a. -/
def jsStrLe (a b : JsStr) : Bool := !decide (b < a)

/- ===== Regular-expression engine =====
   A small derivative-based matcher used to embed the compiled RegExp
   patterns of the source faithfully.  Matching is the regular-language
   semantics, which for the source patterns (all anchored with ^ and $,
   no captures or backreferences) agrees with RegExp.prototype.test. -/

/-- Regular-expression syntax: empty language, empty string, a character
    class given by a predicate, alternation, sequencing, Kleene star. -/
inductive RE where
  | fail : RE
  | eps : RE
  | cls (p : Char → Bool) : RE
  | alt (a b : RE) : RE
  | seq (a b : RE) : RE
  | star (a : RE) : RE

/-- Does the regular expression accept the empty string. -/
def RE.nullable : RE → Bool
  | .fail => false
  | .eps => true
  | .cls _ => false
  | .alt a b => a.nullable || b.nullable
  | .seq a b => a.nullable && b.nullable
  | .star _ => true

/-- Alternation with pruning of the empty language. -/
def RE.mkAlt : RE → RE → RE
  | .fail, b => b
  | a, .fail => a
  | a, b => .alt a b

/-- Sequencing with pruning of the empty language and the empty string. -/
def RE.mkSeq : RE → RE → RE
  | .fail, _ => .fail
  | _, .fail => .fail
  | .eps, b => b
  | a, .eps => a
  | a, b => .seq a b

/-- Brzozowski derivative of a regular expression by one character. -/
def RE.deriv : RE → Char → RE
  | .fail, _ => .fail
  | .eps, _ => .fail
  | .cls p, c => if p c then .eps else .fail
  | .alt a b, c => RE.mkAlt (a.deriv c) (b.deriv c)
  | .seq a b, c =>
    if a.nullable then RE.mkAlt (RE.mkSeq (a.deriv c) b) (b.deriv c)
    else RE.mkSeq (a.deriv c) b
  | .star a, c => RE.mkSeq (a.deriv c) (.star a)

/-- Full match of a string against a regular expression. -/
def reMatch (r : RE) (s : JsStr) : Bool :=
  (s.foldl RE.deriv r).nullable

/-- Literal string as a regular expression. -/
def reStr : JsStr → RE
  | [] => .eps
  | c :: cs => .seq (.cls (· = c)) (reStr cs)

/-- Alternation of a list of literal strings. -/
def reAlts (l : List JsStr) : RE :=
  l.foldr (fun s r => RE.mkAlt (reStr s) r) .fail

/-- One or more repetitions. -/
def rePlus (r : RE) : RE := .seq r (.star r)

/-- Zero or one repetition. -/
def reOpt (r : RE) : RE := .alt .eps r

/-- The JS regex metacharacter dot: any character except the four
    ECMAScript line terminators. -/
def jsDotChar (c : Char) : Bool :=
  !(c = Char.ofNat 10 || c = Char.ofNat 13 ||
    c = Char.ofNat 0x2028 || c = Char.ofNat 0x2029)

/-- ASCII letter or digit, the class [a-zA-Z0-9]. -/
def alnumChar (c : Char) : Bool :=
  (('a' ≤ c && c ≤ 'z') || ('A' ≤ c && c ≤ 'Z') || ('0' ≤ c && c ≤ '9'))

/- ===== The validation-expression table (constructor of the source) ===== -/

/-- Exhaustive list of top-level domains from the source
    (forms.Validation.prototype.topLevelDomains_), split at the regex
    alternation bars. -/
def topLevelDomains_ : List String :=
  ["ac", "ad", "ae", "aero", "af", "ag", "ai", "al", "am", "an", "ao",
   "aq", "ar", "arpa", "as", "asia", "at", "au", "aw", "ax", "az", "ba",
   "bb", "bd", "be", "bf", "bg", "bh", "bi", "biz", "bj", "bm", "bn",
   "bo", "br", "bs", "bt", "bv", "bw", "by", "bz", "ca", "cat", "cc",
   "cd", "cf", "cg", "ch", "ci", "ck", "cl", "cm", "cn", "co", "com",
   "coop", "cr", "cu", "cv", "cx", "cy", "cz", "de", "dj", "dk", "dm",
   "do", "dz", "ec", "edu", "ee", "eg", "er", "es", "et", "eu", "fi",
   "fj", "fk", "fm", "fo", "fr", "ga", "gb", "gd", "ge", "gf", "gg",
   "gh", "gi", "gl", "gm", "gn", "gov", "gp", "gq", "gr", "gs", "gt",
   "gu", "gw", "gy", "hk", "hm", "hn", "hr", "ht", "hu", "id", "ie",
   "il", "im", "in", "info", "int", "io", "iq", "ir", "is", "it", "je",
   "jm", "jo", "jobs", "jp", "ke", "kg", "kh", "ki", "km", "kn", "kp",
   "kr", "kw", "ky", "kz", "la", "lb", "lc", "li", "lk", "lr", "ls",
   "lt", "lu", "lv", "ly", "ma", "mc", "md", "me", "mg", "mh", "mil",
   "mk", "ml", "mm", "mn", "mo", "mobi", "mp", "mq", "mr", "ms", "mt",
   "mu", "museum", "mv", "mw", "mx", "my", "mz", "na", "name", "nc",
   "ne", "net", "nf", "ng", "ni", "nl", "no", "np", "nr", "nu", "nz",
   "om", "org", "pa", "pe", "pf", "pg", "ph", "pk", "pl", "pm", "pn",
   "pr", "pro", "ps", "pt", "pw", "py", "qa", "re", "ro", "rs", "ru",
   "rw", "sa", "sb", "sc", "sd", "se", "sg", "sh", "si", "sj", "sk",
   "sl", "sm", "sn", "so", "sr", "st", "su", "sv", "sy", "sz", "tc",
   "td", "tel", "tf", "tg", "th", "tj", "tk", "tl", "tm", "tn", "to",
   "tp", "tr", "travel", "tt", "tv", "tw", "tz", "ua", "ug", "uk", "us",
   "uy", "uz", "va", "vc", "ve", "vg", "vi", "vn", "vu", "wf", "ws",
   "xn", "ye", "yt", "yu", "za", "zm", "zw"]

/-- The domain expression of the source constructor.  Because the pattern
    is built from a plain (non-raw) JS string literal, the two-character
    sequence backslash-dot in the literal denotes a bare dot, so both
    dots in the pattern are the any-character metacharacter.  The regex
    source is
    caret (?:[a-zA-Z0-9_-]* any)* (?:[a-zA-Z0-9](?:[a-zA-Z0-9-]*[a-zA-Z0-9])?)+ any (?:tlds) dollar. -/
def domainRE : RE :=
  .seq (.star (.seq (.star (.cls (fun c => alnumChar c || c = '_' || c = '-')))
                    (.cls jsDotChar)))
    (.seq (rePlus (.seq (.cls alnumChar)
                        (reOpt (.seq (.star (.cls (fun c => alnumChar c || c = '-')))
                                     (.cls alnumChar)))))
          (.seq (.cls jsDotChar) (reAlts (topLevelDomains_.map String.data))))

/-- validationExp lookup result: a compiled pattern as a test function. -/
abbrev ExpTable := JsStr → Option (JsStr → Bool)

/-- Embeds the pattern caret [a-zA-Z and u00c0 to u00ff]+ dollar
    (validationExp alpha). -/
def alphaOk (s : JsStr) : Bool :=
  !s.isEmpty && s.all (fun c =>
    (('a' ≤ c && c ≤ 'z') || ('A' ≤ c && c ≤ 'Z') ||
     (Char.ofNat 0xc0 ≤ c && c ≤ Char.ofNat 0xff)))

/-- Embeds the pattern caret [a-zA-Z0-9 and u00c0 to u00ff]+ dollar
    (validationExp alphanum). -/
def alphanumOk (s : JsStr) : Bool :=
  !s.isEmpty && s.all (fun c =>
    (alnumChar c || (Char.ofNat 0xc0 ≤ c && c ≤ Char.ofNat 0xff)))

/-- validationExp domain: full match against the domain expression. -/
def domainOk (s : JsStr) : Bool := reMatch domainRE s

/-- Embeds the pattern caret dot brace 1,255 brace dollar
    (validationExp email-local): one to 255 characters none of which is a
    line terminator. -/
def emailLocalOk (s : JsStr) : Bool :=
  decide (1 ≤ s.length) && decide (s.length ≤ 255) && s.all jsDotChar

/-- Embeds the pattern caret backslash-d + dollar (validationExp num). -/
def numOk (s : JsStr) : Bool :=
  !s.isEmpty && s.all (fun c => '0' ≤ c && c ≤ '9')

/-- Embeds the pattern caret [0-9.()+ -] brace 10,25 brace dollar
    (validationExp phone). -/
def phoneOk (s : JsStr) : Bool :=
  decide (10 ≤ s.length) && decide (s.length ≤ 25) &&
  s.all (fun c => ('0' ≤ c && c ≤ '9') || c = '.' || c = '(' || c = ')' ||
                  c = '+' || c = ' ' || c = '-')

/-- Embeds the pattern caret https?:// dot + dollar (validationExp url):
    the literal scheme with an optional s, then one or more
    non-line-terminator characters. -/
def urlOk (s : JsStr) : Bool :=
  (match s with
   | 'h' :: 't' :: 't' :: 'p' :: 's' :: ':' :: '/' :: '/' :: rest =>
     !rest.isEmpty && rest.all jsDotChar
   | 'h' :: 't' :: 't' :: 'p' :: ':' :: '/' :: '/' :: rest =>
     !rest.isEmpty && rest.all jsDotChar
   | _ => false)

/-- The validation-expression table built by the constructor:
    this.validationExp with its seven default entries. -/
def defTable : ExpTable := fun k =>
  if k = "alpha".data then some alphaOk
  else if k = "alphanum".data then some alphanumOk
  else if k = "domain".data then some domainOk
  else if k = "email-local".data then some emailLocalOk
  else if k = "num".data then some numOk
  else if k = "phone".data then some phoneOk
  else if k = "url".data then some urlOk
  else none

/-- fileTypes lookup: group name to list of lowercase extensions. -/
abbrev FileTable := JsStr → Option (List JsStr)

/-- The file-type table built by the constructor (this.fileTypes). -/
def defFileTypes : FileTable := fun k =>
  if k = "audio".data then
    some (["mp3", "mp4", "flac", "ogg", "wma", "wav"].map String.data)
  else if k = "image".data then
    some (["bmp", "gif", "jpg", "jpeg", "png", "tif", "raw"].map String.data)
  else if k = "pdf".data then some (["pdf"].map String.data)
  else if k = "text".data then some (["txt"].map String.data)
  else if k = "html".data then some (["html", "htm"].map String.data)
  else if k = "video".data then
    some (["mov", "mpeg", "mpg", "avi", "ogm", "wmv"].map String.data)
  else none

/- ===== Data model ===== -/

/-- Mutable configuration properties of forms.Validation read at
    validation time.  Field pfx embeds this.prefix and sfx embeds
    this.suffix (those spellings are unavailable here). -/
structure Config where
  errorClass : JsStr
  pfx : JsStr
  sfx : JsStr
  multiClass : JsStr
deriving DecidableEq

/-- The prototype defaults: errorClass error, prefix v-, suffix -err,
    multiClass m. -/
def defaultConfig : Config :=
  { errorClass := "error".data, pfx := "v-".data, sfx := "-err".data,
    multiClass := "m".data }

/-- A form control as the checkers read it (named FormField because the
    source name Field is taken by the algebra library).  selOpt models
    options[selectedIndex].value of a select control, none when there is
    no selected option (so that the access faults). -/
structure FormField where
  ftype : JsStr
  value : JsStr
  checked : Bool
  disabled : Bool
  readonly : Bool
  selOpt : Option JsStr
deriving DecidableEq

/-- What form.elements[name] resolves to: a single control or a
    same-named collection (checkbox or radio groups). -/
inductive Control where
  | single (f : FormField) : Control
  | group (fs : List FormField) : Control
deriving DecidableEq

/-- The form: named-control lookup, the only part of the form the
    validation logic reads. -/
structure Form where
  elements : JsStr → Option Control

/-- An error-message element: its id and its space-separated class
    string, the two attributes the validator reads from it. -/
structure ErrorElem where
  id : JsStr
  className : JsStr
deriving DecidableEq

/-- Result of splitClassName_: validation identifier and arguments. -/
structure RuleSpec where
  method : JsStr
  args : List JsStr
deriving DecidableEq

/- ===== Source functions ===== -/

/-- formGet_: this.form_.elements[fieldName], falling back to the
    bracket-suffixed name, null (none) when both lookups fail. -/
def formGet_ (form : Form) (fieldName : JsStr) : Option Control :=
  match form.elements fieldName with
  | some c => some c
  | none => form.elements (fieldName ++ "[]".data)

/-- getFieldName_: drop suffix-many trailing characters from the error
    id; when the prefixed multi-class marker occurs among the
    space-separated classes, additionally truncate at the last hyphen.
    The source scans classArr with a for loop that applies the
    truncation once and breaks at the first match, which is the same as
    the membership test used here.  The second source call site passes
    no class string; callers here pass [] for it. -/
def getFieldName_ (cfg : Config) (errorId : JsStr) (className : JsStr) : JsStr :=
  let field := jsSubstring errorId 0 ((errorId.length : Int) - cfg.sfx.length)
  let classArr := jsSplit ' ' className
  if (cfg.pfx ++ cfg.multiClass) ∈ classArr then
    jsSubstring field 0 (jsLastIndexOf '-' field)
  else field

/-- splitClassName_: when className.indexOf(prefix) is at least 0 (the
    prefix occurs anywhere), drop prefix-length leading characters;
    split on hyphens; discard empty segments; first surviving segment is
    the method, the rest are the arguments. -/
def splitClassName_ (cfg : Config) (className : JsStr) : RuleSpec :=
  let cn := if containsSub className cfg.pfx
            then jsSubstrFrom className cfg.pfx.length
            else className
  match (jsSplit '-' cn).filter (· ≠ []) with
  | [] => { method := [], args := [] }
  | m :: rest => { method := m, args := rest }

/-- isValidRegExp_: this.validationExp[expression].test(value); a
    missing key makes the member access throw (none). -/
def isValidRegExp_ (tbl : ExpTable) (value expression : JsStr) : Option Bool :=
  (tbl expression).map (fun test => test value)

/-- isValidEmail_: reject when no at-sign is present, otherwise split at
    the last at-sign, check the part after it against the domain
    expression and the part before it against email-local. -/
def isValidEmail_ (tbl : ExpTable) (value : JsStr) : Option Bool :=
  if value.contains '@' = false then some false
  else
    let sep := jsLastIndexOf '@' value
    match isValidRegExp_ tbl (jsSubstrFrom value (sep + 1)) "domain".data with
    | none => none
    | some false => some false
    | some true => isValidRegExp_ tbl (jsSubstring value 0 sep) "email-local".data

/-- isValidLength_ with its documented numeric arguments: when max is
    falsy (null, absent or zero) the value only has to be at least min
    characters long, otherwise min must not exceed max and the length
    must lie within the two bounds. -/
def isValidLength_ (value : JsStr) (min : Nat) (max : Option Nat) : Bool :=
  match max with
  | none => decide (min ≤ value.length)
  | some m =>
    if m = 0 then decide (min ≤ value.length)
    else decide (min ≤ m) && decide (min ≤ value.length) && decide (value.length ≤ m)

/-- The len dispatch branch of validateHandler_ as executed on the
    string arguments class tokens supply: args[0] and args[1] stay
    strings, so the max-falsiness test sees a nonempty string (truthy),
    min <= max compares the two strings lexicographically, and the two
    length comparisons coerce the strings with ToNumber (NaN compares
    false).  With no arguments the length test against NaN is false. -/
def lenCaseJS (value : JsStr) (args : List JsStr) : Bool :=
  match args with
  | [] => false
  | [a] =>
    match jsToNum a with
    | some n => decide (value.length ≥ n)
    | none => false
  | a :: b :: _ =>
    jsStrLe a b &&
    (match jsToNum a with
     | some n => decide (value.length ≥ n)
     | none => false) &&
    (match jsToNum b with
     | some n => decide (value.length ≤ n)
     | none => false)

/-- getFileExtension_: everything after the last dot (the whole value
    when there is none). -/
def getFileExtension_ (value : JsStr) : JsStr :=
  jsSubstrFrom value (jsLastIndexOf '.' value + 1)

/-- isValidFileExtension_: lower-case the extracted extension and test
    membership in the named file-type group; a missing group name makes
    the length access on undefined throw (none). -/
def isValidFileExtension_ (ft : FileTable) (value filetype : JsStr) : Option Bool :=
  (ft filetype).map (fun exts => exts.contains ((getFileExtension_ value).map Char.toLower))

/-- The quote-strip preamble of the file and upload dispatch branch:
    when the last character of the value (charAt of length minus one) is
    a double-quote, the value is replaced by substring(0, length - 2),
    removing the final two characters. -/
def stripTrailQuote (value : JsStr) : JsStr :=
  match value.getLast? with
  | some '"' => jsSubstring value 0 ((value.length : Int) - 2)
  | _ => value

/-- hasValue_: double negation of value.length, that is nonemptiness. -/
def hasValue_ (value : JsStr) : Bool := !value.isEmpty

/-- Evaluation of one prefixed class token: the switch on the parsed
    method inside validateHandler_, in source case order.  Returns the
    validity together with the (possibly quote-stripped) value the loop
    continues with, or none when the JS would throw: a missing
    file-type group or argument, a missing comparison field, or an
    unknown expression key. -/
def evalRuleToken (cfg : Config) (form : Form) (tbl : ExpTable) (ft : FileTable)
    (value className : JsStr) : Option (Bool × JsStr) :=
  let parts := splitClassName_ cfg className
  if parts.method = "email".data then
    (isValidEmail_ tbl value).map (fun b => (b, value))
  else if parts.method = "file".data ∨ parts.method = "upload".data then
    let v := stripTrailQuote value
    match parts.args.head? with
    | none => none
    | some g => (isValidFileExtension_ ft v g).map (fun b => (b, v))
  else if parts.method = "len".data then
    some (lenCaseJS value parts.args, value)
  else if parts.method = "match".data ∨ parts.method = "eq".data ∨
          parts.method = "equal".data then
    match parts.args.head? with
    | none => none
    | some other =>
      match formGet_ form other with
      | none => none
      | some (.single f) => some (decide (value = f.value), value)
      | some (.group _) => some (false, value)
  else if parts.method = "required".data ∨ parts.method = "error".data ∨
          parts.method = cfg.errorClass then
    some (hasValue_ value, value)
  else if parts.method = cfg.multiClass then
    some (true, value)
  else
    (isValidRegExp_ tbl value parts.method).map (fun b => (b, value))

/-- The token loop of validateHandler_.  The loop condition
    className = classArr[i] stops at the first falsy element, so an
    empty token terminates the scan with the current verdict true.
    Unprefixed tokens leave valid true and move on; a failing prefixed
    token returns false at once; the value is threaded through because
    the file branch reassigns it. -/
def vhLoop (cfg : Config) (form : Form) (tbl : ExpTable) (ft : FileTable) :
    JsStr → List JsStr → Option Bool
  | _, [] => some true
  | value, tok :: rest =>
    if tok = [] then some true
    else if jsSubstring tok 0 cfg.pfx.length = cfg.pfx then
      match evalRuleToken cfg form tbl ft value tok with
      | none => none
      | some (b, v) =>
        if b then vhLoop cfg form tbl ft v rest else some false
    else vhLoop cfg form tbl ft value rest

/-- validateHandler_: split the class string on spaces and run the
    token loop. -/
def validateHandler_ (cfg : Config) (form : Form) (tbl : ExpTable) (ft : FileTable)
    (className value : JsStr) : Option Bool :=
  vhLoop cfg form tbl ft value (jsSplit ' ' className)

/-- checkCheckbox_ on the fetched control: a nonempty collection passes
    when some member is enabled and checked; an empty collection has
    falsy length, falls into the single-control branch and yields a
    falsy result; a single control passes when disabled or checked. -/
def checkCheckbox_ : Control → Bool
  | .single f => f.disabled || f.checked
  | .group [] => false
  | .group (f :: fs) => (f :: fs).any (fun g => !g.disabled && g.checked)

/-- checkRadio_ on the fetched control: a single control has no length
    property, the loop bound is undefined and the loop body never runs,
    so the result is false even for a checked radio; a collection passes
    when some member is checked (disabled is not consulted). -/
def checkRadio_ : Control → Bool
  | .single _ => false
  | .group fs => fs.any (·.checked)

/-- checkText_ on the fetched control: disabled or read-only passes,
    otherwise the class-token chain runs against the value.  On a
    collection field.value is undefined and rule evaluation faults;
    modelled as a thrown error. -/
def checkText_ (cfg : Config) (form : Form) (tbl : ExpTable) (ft : FileTable)
    (ctrl : Control) (className : JsStr) : Option Bool :=
  match ctrl with
  | .single f =>
    if f.disabled || f.readonly then some true
    else validateHandler_ cfg form tbl ft className f.value
  | .group _ => none

/-- checkSelect_ on the fetched control: disabled passes, otherwise the
    selected option value must be nonempty; with no selected option the
    indexing faults.  Collections of selects fault on options. -/
def checkSelect_ : Control → Option Bool
  | .single f =>
    if f.disabled then some true
    else (f.selOpt).map hasValue_
  | .group _ => none

/-- checkTextArea_ on the fetched control: disabled or read-only passes,
    otherwise the value must be nonempty. -/
def checkTextArea_ : Control → Option Bool
  | .single f => some (f.disabled || f.readonly || hasValue_ f.value)
  | .group _ => none

/-- checkFileUpload_ on the fetched control: disabled passes, otherwise
    the class-token chain runs against the filename value. -/
def checkFileUpload_ (cfg : Config) (form : Form) (tbl : ExpTable) (ft : FileTable)
    (ctrl : Control) (className : JsStr) : Option Bool :=
  match ctrl with
  | .single f =>
    if f.disabled then some true
    else validateHandler_ cfg form tbl ft className f.value
  | .group _ => none

/-- check_: fetch the control (null faults), read its type (for a
    collection the type of member zero, faulting when the collection is
    empty), then dispatch by type; unlisted types always pass. -/
def check_ (cfg : Config) (form : Form) (tbl : ExpTable) (ft : FileTable)
    (fieldName className : JsStr) : Option Bool :=
  match formGet_ form fieldName with
  | none => none
  | some ctrl =>
    let t? : Option JsStr :=
      match ctrl with
      | .single f => some f.ftype
      | .group [] => none
      | .group (f :: _) => some f.ftype
    match t? with
    | none => none
    | some t =>
      if t = "checkbox".data then some (checkCheckbox_ ctrl)
      else if t = "text".data ∨ t = "password".data then
        checkText_ cfg form tbl ft ctrl className
      else if t = "select-one".data ∨ t = "select-multiple".data then
        checkSelect_ ctrl
      else if t = "textarea".data then checkTextArea_ ctrl
      else if t = "file".data then checkFileUpload_ cfg form tbl ft ctrl className
      else if t = "radio".data then some (checkRadio_ ctrl)
      else some true

/- ===== The isValid loop ===== -/

/-- State of the error-message loop inside isValid.  The writes field
    collects the display_(element, show) calls in order as (id, show)
    pairs; evals is a ghost field recording the field name of every
    check_ invocation, used to state the evaluation-count properties; it
    influences nothing else. -/
structure LoopState where
  valid : Bool
  firstErrorId : JsStr
  lastFailedField : JsStr
  writes : List (JsStr × Bool)
  evals : List JsStr
deriving DecidableEq

/-- Initial loop state: valid true, empty firstErrorId and
    lastFailedField, no display writes, no evaluations. -/
def initLoopState : LoopState :=
  { valid := true, firstErrorId := [], lastFailedField := [],
    writes := [], evals := [] }

/-- The error-message loop of isValid.  For each element whose derived
    field name is nonempty and differs from lastFailedField, check_ runs;
    on failure the first failing id is recorded, valid is cleared and
    lastFailedField becomes the field name; display_ is then called with
    the failure flag.  Elements failing the guard are skipped without a
    display call.  A throwing check_ aborts the loop (second component
    false). -/
def loopRun (cfg : Config) (form : Form) (tbl : ExpTable) (ft : FileTable) :
    LoopState → List ErrorElem → LoopState × Bool
  | st, [] => (st, true)
  | st, e :: rest =>
    let fid := getFieldName_ cfg e.id e.className
    if fid ≠ [] ∧ fid ≠ st.lastFailedField then
      match check_ cfg form tbl ft fid e.className with
      | none => ({ st with evals := st.evals ++ [fid] }, false)
      | some ok =>
        loopRun cfg form tbl ft
          { valid := st.valid && ok,
            firstErrorId := if !ok && st.valid then e.id else st.firstErrorId,
            lastFailedField := if ok then st.lastFailedField else fid,
            writes := st.writes ++ [(e.id, !ok)],
            evals := st.evals ++ [fid] } rest
    else loopRun cfg form tbl ft st rest

/-- Display state of the error elements, keyed by element id: true means
    shown. -/
abbrev DisplayMap := JsStr → Bool

/-- Apply a list of display writes in order; later writes win. -/
def applyWrites (ws : List (JsStr × Bool)) (d : DisplayMap) : DisplayMap :=
  ws.foldl (fun acc p => fun x => if x = p.1 then p.2 else acc x) d

/-- The last write a list of display writes makes to an id, if any. -/
def lastWrite : List (JsStr × Bool) → JsStr → Option Bool
  | [], _ => none
  | p :: ws, x =>
    match lastWrite ws x with
    | some b => some b
    | none => if p.1 = x then some p.2 else none

/-- The display writes one isValid call performs: hideAllErrors sets
    every matched element hidden, then the loop appends its calls.  The
    msgs argument stands for the element list getElementsByClass_
    returns, which depends only on the ids, class strings and tag names
    of the document, never on display state. -/
def isValidWrites (cfg : Config) (form : Form) (tbl : ExpTable) (ft : FileTable)
    (msgs : List ErrorElem) : List (JsStr × Bool) :=
  msgs.map (fun e => (e.id, false)) ++
    (loopRun cfg form tbl ft initLoopState msgs).1.writes

/-- The boolean outcome of one isValid call: none when a check_ threw or
    when, after a failure, focusing the first failing field faults
    (formGet_ returns null or an empty collection, so both focus
    attempts of focus_ throw).  The optional anchor jump only assigns
    window.location and is outside the model. -/
def isValidResult (cfg : Config) (form : Form) (tbl : ExpTable) (ft : FileTable)
    (msgs : List ErrorElem) : Option Bool :=
  let (st, ok) := loopRun cfg form tbl ft initLoopState msgs
  if !ok then none
  else if st.valid then some true
  else
    match formGet_ form (getFieldName_ cfg st.firstErrorId []) with
    | some (.single _) => some false
    | some (.group (_ :: _)) => some false
    | _ => none

/-- One isValid call as a state transformer on the display map: the
    boolean (or thrown) outcome together with the display state it
    leaves behind. -/
def isValidModel (cfg : Config) (form : Form) (tbl : ExpTable) (ft : FileTable)
    (msgs : List ErrorElem) (d : DisplayMap) : Option Bool × DisplayMap :=
  (isValidResult cfg form tbl ft msgs,
   applyWrites (isValidWrites cfg form tbl ft msgs) d)

/-- Ghost observation: the field names check_ was invoked on, in order,
    during one isValid call. -/
def isValidEvals (cfg : Config) (form : Form) (tbl : ExpTable) (ft : FileTable)
    (msgs : List ErrorElem) : List JsStr :=
  (loopRun cfg form tbl ft initLoopState msgs).1.evals

/- ===== Definitions written from the claims (for comparison) ===== -/

/-- Modelled from the claim wording of C3: the prefix is removed when
    and only when the token begins with it; otherwise the token is used
    as-is; then hyphen split, empty segments discarded. -/
def splitClassNameSpecC3 (cfg : Config) (className : JsStr) : RuleSpec :=
  let cn := if cfg.pfx.isPrefixOf className
            then className.drop cfg.pfx.length
            else className
  match (jsSplit '-' cn).filter (· ≠ []) with
  | [] => { method := [], args := [] }
  | m :: rest => { method := m, args := rest }

/-- Splitting on a character with empty segments discarded, written as
    one direct accumulator recursion (used to state the amended C3). -/
def segsAux (c : Char) (acc : JsStr) : JsStr → List JsStr
  | [] => if acc = [] then [] else [acc.reverse]
  | x :: xs =>
    if x = c then
      if acc = [] then segsAux c [] xs else acc.reverse :: segsAux c [] xs
    else segsAux c (x :: acc) xs

/-- Modelled from the amended claim C3: drop prefix-length leading
    characters exactly when the token contains the prefix anywhere, then
    take the nonempty hyphen-separated segments; the first is the
    method, the rest the arguments. -/
def splitClassNameAmendedC3 (cfg : Config) (className : JsStr) : RuleSpec :=
  let cn := if containsSub className cfg.pfx
            then className.drop cfg.pfx.length
            else className
  match segsAux '-' [] cn with
  | [] => { method := [], args := [] }
  | m :: rest => { method := m, args := rest }

/-- Modelled from the amended claim C2: the class string is split on
    single spaces; only the tokens before the first empty token are
    processed; among them exactly those beginning with the prefix are
    rule tokens; every processed rule token must pass, with a
    short-circuit to false at the first failure, the value being
    threaded through evaluation. -/
def evalSpecC2Loop (cfg : Config) (form : Form) (tbl : ExpTable) (ft : FileTable) :
    JsStr → List JsStr → Option Bool
  | _, [] => some true
  | value, tok :: rest =>
    if cfg.pfx.isPrefixOf tok then
      match evalRuleToken cfg form tbl ft value tok with
      | none => none
      | some (true, v) => evalSpecC2Loop cfg form tbl ft v rest
      | some (false, _) => some false
    else evalSpecC2Loop cfg form tbl ft value rest

/-- Modelled from the amended claim C2, top level: process the tokens
    before the first empty one. -/
def evalSpecC2 (cfg : Config) (form : Form) (tbl : ExpTable) (ft : FileTable)
    (className value : JsStr) : Option Bool :=
  evalSpecC2Loop cfg form tbl ft value ((jsSplit ' ' className).takeWhile (· ≠ []))

/-- A form with no controls, for counterexamples that never consult it. -/
def emptyForm : Form := { elements := fun _ => none }

/- ===== Concrete instances used by counterexamples and witnesses ===== -/

/-- A plain text control with value x. -/
def textFieldX : FormField :=
  { ftype := "text".data, value := "x".data, checked := false,
    disabled := false, readonly := false, selOpt := none }

/-- A form with one text control named a. -/
def formA : Form :=
  { elements := fun n => if n = "a".data then some (.single textFieldX) else none }

/-- Two multi-message error elements for field a whose rule chain
    passes (only a presence check, and the value is nonempty). -/
def msgsA : List ErrorElem :=
  [{ id := "a-0-err".data, className := "v-error v-m".data },
   { id := "a-1-err".data, className := "v-error v-m".data }]

/-- A form with one text control named b (value x, not numeric). -/
def formB : Form :=
  { elements := fun n => if n = "b".data then some (.single textFieldX) else none }

/-- First multi-message error element for field b: its v-num rule fails
    on the value x. -/
def elemB0 : ErrorElem := { id := "b-0-err".data, className := "v-error v-m v-num".data }

/-- Second multi-message error element for field b. -/
def elemB1 : ErrorElem := { id := "b-1-err".data, className := "v-error v-m".data }

/-- A single (non-grouped) checked radio control. -/
def radioFieldChecked : FormField :=
  { ftype := "radio".data, value := "on".data, checked := true,
    disabled := false, readonly := false, selOpt := none }

/-- A form with one lone radio control named r. -/
def formR : Form :=
  { elements := fun n => if n = "r".data then some (.single radioFieldChecked) else none }

/- ===== Helper lemmas ===== -/

/-- substring with start 0 and a natural end index is take. -/
theorem jsSubstring_zero_nat (s : JsStr) (k : Nat) :
    jsSubstring s 0 (k : Int) = s.take k := by
  unfold jsSubstring
  dsimp only
  have h0 : (min (max (0 : Int) 0) (s.length : Int)).toNat = 0 := by
    simp [min_def, max_def]
  have hk : (min (max (k : Int) 0) (s.length : Int)).toNat = min k s.length := by
    rw [max_eq_left (Int.natCast_nonneg k), ← Nat.cast_min, Int.toNat_natCast]
  rw [h0, hk]
  simp only [Nat.zero_min, Nat.zero_max, List.drop_zero, Nat.sub_zero]
  rcases Nat.le_total k s.length with h | h
  · rw [Nat.min_eq_left h]
  · rw [Nat.min_eq_right h, List.take_of_length_le h,
        List.take_of_length_le (le_refl _)]

/-- substring from a natural start index to the end is drop. -/
theorem jsSubstrFrom_nat (s : JsStr) (k : Nat) :
    jsSubstrFrom s (k : Int) = s.drop k := by
  unfold jsSubstrFrom jsSubstring
  dsimp only
  have hk : (min (max (k : Int) 0) (s.length : Int)).toNat = min k s.length := by
    rw [max_eq_left (Int.natCast_nonneg k), ← Nat.cast_min, Int.toNat_natCast]
  have hn : (min (max (s.length : Int) 0) (s.length : Int)).toNat = s.length := by
    rw [max_eq_left (Int.natCast_nonneg _), min_self, Int.toNat_natCast]
  rw [hk, hn]
  have hle : min k s.length ≤ s.length := Nat.min_le_right _ _
  rw [Nat.min_eq_left hle, Nat.max_eq_right hle]
  rcases Nat.le_total k s.length with h | h
  · rw [Nat.min_eq_left h]
    exact List.take_of_length_le (by rw [List.length_drop])
  · rw [Nat.min_eq_right h]
    rw [List.drop_length, List.drop_of_length_le h]
    simp

/-- lastIndexOf is -1 exactly on strings not containing the character;
    only the absence direction is needed. -/
theorem jsLastIndexOf_not_mem {c : Char} {s : JsStr} (h : c ∉ s) :
    jsLastIndexOf c s = -1 := by
  induction s with
  | nil => rfl
  | cons x xs ih =>
    have hx : x ≠ c := fun he => h (he ▸ List.mem_cons_self x xs)
    have hxs : c ∉ xs := fun hm => h (List.mem_cons_of_mem x hm)
    simp only [jsLastIndexOf, ih hxs]
    norm_num [hx]

/-- lastIndexOf finds the marked occurrence when nothing to its right
    matches. -/
theorem jsLastIndexOf_append {c : Char} (a : JsStr) {b : JsStr} (h : c ∉ b) :
    jsLastIndexOf c (a ++ c :: b) = (a.length : Int) := by
  induction a with
  | nil =>
    simp only [List.nil_append, jsLastIndexOf, jsLastIndexOf_not_mem h]
    norm_num
  | cons x xs ih =>
    simp only [List.cons_append, jsLastIndexOf, List.append_eq]
    rw [ih]
    rw [if_pos (Int.natCast_nonneg xs.length)]
    simp [List.length_cons]

/-- The begins-with test of the source (substring of prefix length
    compared with the prefix) is the isPrefixOf predicate. -/
theorem jsSubstring_pfx_iff (tok p : JsStr) :
    jsSubstring tok 0 (p.length : Int) = p ↔ p.isPrefixOf tok := by
  rw [jsSubstring_zero_nat, List.isPrefixOf_iff_prefix]
  constructor
  · intro h
    exact List.prefix_iff_eq_take.mpr h.symm
  · intro h
    exact (List.prefix_iff_eq_take.mp h).symm

/-- Splitting a string without the separator yields that one segment. -/
theorem jsSplit_no_sep {c : Char} {a : JsStr} (h : c ∉ a) :
    jsSplit c a = [a] := by
  induction a with
  | nil => rfl
  | cons x xs ih =>
    have hx : x ≠ c := fun he => h (he ▸ List.mem_cons_self x xs)
    have hxs : c ∉ xs := fun hm => h (List.mem_cons_of_mem x hm)
    simp only [jsSplit, ih hxs]
    rw [if_neg hx]

/-- The split of any string is a nonempty list of segments. -/
theorem jsSplit_ne_nil (c : Char) (s : JsStr) : jsSplit c s ≠ [] := by
  induction s with
  | nil => simp [jsSplit]
  | cons x xs ih =>
    simp only [jsSplit]
    cases hsp : jsSplit c xs with
    | nil => simp
    | cons y ys => by_cases hx : x = c <;> simp [hx]

/-- Splitting peels a separator-free block before a separator. -/
theorem jsSplit_append_sep {c : Char} {a : JsStr} (l : JsStr) (h : c ∉ a) :
    jsSplit c (a ++ c :: l) = a :: jsSplit c l := by
  induction a with
  | nil =>
    show jsSplit c (c :: l) = [] :: jsSplit c l
    simp only [jsSplit]
    cases hsp : jsSplit c l with
    | nil => exact absurd hsp (jsSplit_ne_nil c l)
    | cons y ys => simp
  | cons x xs ih =>
    have hx : x ≠ c := fun he => h (he ▸ List.mem_cons_self x xs)
    have hxs : c ∉ xs := fun hm => h (List.mem_cons_of_mem x hm)
    simp only [List.cons_append, jsSplit, List.append_eq]
    rw [ih hxs]
    simp [hx]

/-- The accumulator recursion of segsAux computes the nonempty segments
    of the pending accumulator followed by the rest. -/
theorem segsAux_eq (c : Char) (l : JsStr) :
    ∀ acc : JsStr, c ∉ acc →
      segsAux c acc l = (jsSplit c (acc.reverse ++ l)).filter (· ≠ []) := by
  induction l with
  | nil =>
    intro acc hacc
    have hrev : c ∉ acc.reverse := fun hm => hacc (List.mem_reverse.mp hm)
    rw [List.append_nil, jsSplit_no_sep hrev]
    by_cases ha : acc = []
    · subst ha; rfl
    · have : acc.reverse ≠ [] := by simpa using ha
      simp [segsAux, ha, this]
  | cons x xs ih =>
    intro acc hacc
    have hrev : c ∉ acc.reverse := fun hm => hacc (List.mem_reverse.mp hm)
    by_cases hx : x = c
    · subst hx
      rw [jsSplit_append_sep xs hrev]
      by_cases ha : acc = []
      · subst ha
        simp only [segsAux, if_pos rfl, List.reverse_nil, List.filter]
        rw [ih [] (List.not_mem_nil x)]
        simp
      · have hne : acc.reverse ≠ [] := by simpa using ha
        simp only [segsAux, if_pos rfl, if_neg ha]
        rw [ih [] (List.not_mem_nil x)]
        simp [hne]
    · have hacc2 : c ∉ x :: acc := by
        intro hm
        rcases List.mem_cons.mp hm with he | hm2
        · exact hx he.symm
        · exact hacc hm2
      simp only [segsAux, if_neg hx]
      rw [ih (x :: acc) hacc2]
      simp [List.reverse_cons, List.append_assoc]

/-- applyWrites is pointwise the last write when there is one, and the
    base display otherwise. -/
theorem applyWrites_eq_lastWrite (ws : List (JsStr × Bool)) :
    ∀ (d : DisplayMap) (x : JsStr),
      applyWrites ws d x = (lastWrite ws x).getD (d x) := by
  induction ws with
  | nil => intro d x; rfl
  | cons p ws ih =>
    intro d x
    show applyWrites ws (fun y => if y = p.1 then p.2 else d y) x = _
    rw [ih]
    simp only [lastWrite]
    cases lastWrite ws x with
    | some b => rfl
    | none =>
      by_cases hx : x = p.1
      · simp [hx]
      · have hx2 : p.1 ≠ x := fun he => hx he.symm
        simp [hx, hx2]

/-- Applying the same write list twice is the same as applying it
    once. -/
theorem applyWrites_idem (ws : List (JsStr × Bool)) (d : DisplayMap) :
    applyWrites ws (applyWrites ws d) = applyWrites ws d := by
  funext x
  rw [applyWrites_eq_lastWrite, applyWrites_eq_lastWrite]
  cases lastWrite ws x with
  | some b => rfl
  | none => rfl

/-- The token loop of the source equals the amended-specification loop
    run on the tokens before the first empty one. -/
theorem vhLoop_eq_spec (cfg : Config) (form : Form) (tbl : ExpTable) (ft : FileTable) :
    ∀ (toks : List JsStr) (value : JsStr),
      vhLoop cfg form tbl ft value toks =
        evalSpecC2Loop cfg form tbl ft value (toks.takeWhile (· ≠ [])) := by
  intro toks
  induction toks with
  | nil => intro value; rfl
  | cons t ts ih =>
    intro value
    by_cases ht : t = []
    · subst ht
      simp [vhLoop, List.takeWhile, evalSpecC2Loop]
    · have htw : ((t :: ts).takeWhile (· ≠ [])) = t :: ts.takeWhile (· ≠ []) := by
        simp [List.takeWhile, ht]
      rw [htw]
      by_cases hp : cfg.pfx.isPrefixOf t
      · have hsub : jsSubstring t 0 (cfg.pfx.length : Int) = cfg.pfx :=
          (jsSubstring_pfx_iff t cfg.pfx).mpr hp
        simp only [vhLoop, evalSpecC2Loop, if_neg ht, if_pos hsub, if_pos hp]
        cases evalRuleToken cfg form tbl ft value t with
        | none => rfl
        | some p =>
          cases p with
          | mk b v => cases b <;> simp [ih]
      · have hsub : ¬ jsSubstring t 0 (cfg.pfx.length : Int) = cfg.pfx :=
          fun hh => hp ((jsSubstring_pfx_iff t cfg.pfx).mp hh)
        simp only [vhLoop, evalSpecC2Loop, if_neg ht, if_neg hsub, if_neg hp]
        exact ih value

/-- Elements whose derived field name equals the current
    lastFailedField are skipped without any effect on the loop state. -/
theorem loopRun_skip_all (cfg : Config) (form : Form) (tbl : ExpTable) (ft : FileTable) :
    ∀ (rest more : List ErrorElem) (st : LoopState),
      (∀ e ∈ rest, getFieldName_ cfg e.id e.className = st.lastFailedField) →
      loopRun cfg form tbl ft st (rest ++ more) =
        loopRun cfg form tbl ft st more := by
  intro rest
  induction rest with
  | nil => intro more st _; rfl
  | cons e rest ih =>
    intro more st h
    have he : getFieldName_ cfg e.id e.className = st.lastFailedField :=
      h e (List.mem_cons_self e rest)
    have hguard : ¬(getFieldName_ cfg e.id e.className ≠ [] ∧
        getFieldName_ cfg e.id e.className ≠ st.lastFailedField) := by
      intro hc
      exact hc.2 he
    simp only [List.cons_append, loopRun, if_neg hguard]
    exact ih more st (fun e' hm => h e' (List.mem_cons_of_mem e hm))

/- ===== Claim theorems ===== -/

/-- Claim C1 counterexample: two consecutive error elements for the same
    field a (both resolve to field name a) are BOTH evaluated by check_
    when the first evaluation passes, because the skip compares against
    the last FAILED field, not the last processed one.  The claim says
    at most one evaluation per run of same-field elements regardless of
    pass or fail; here the run of two gets two evaluations. -/
theorem C1_counterexample :
    getFieldName_ defaultConfig "a-0-err".data "v-error v-m".data = "a".data ∧
    getFieldName_ defaultConfig "a-1-err".data "v-error v-m".data = "a".data ∧
    isValidEvals defaultConfig formA defTable defFileTypes msgsA =
      ["a".data, "a".data] := by
  refine ⟨by decide, by decide, by decide⟩

/-- Claim C1 (amended): an error element is skipped when its field name
    is empty or equals the field name of the most recent FAILED check_
    evaluation; hence once an element of a same-field run fails, the
    remaining elements of that run are skipped entirely: inserting them
    after the failing element leaves the loop outcome (state, writes and
    ghost evaluation trace included) unchanged. -/
theorem C1_theorem (cfg : Config) (form : Form) (tbl : ExpTable) (ft : FileTable)
    (st : LoopState) (e : ErrorElem) (rest1 rest2 : List ErrorElem)
    (hfid : getFieldName_ cfg e.id e.className ≠ [])
    (hlast : getFieldName_ cfg e.id e.className ≠ st.lastFailedField)
    (hfail : check_ cfg form tbl ft (getFieldName_ cfg e.id e.className) e.className =
      some false)
    (hsame : ∀ e' ∈ rest1,
      getFieldName_ cfg e'.id e'.className = getFieldName_ cfg e.id e.className) :
    loopRun cfg form tbl ft st (e :: (rest1 ++ rest2)) =
      loopRun cfg form tbl ft st (e :: rest2) := by
  simp only [loopRun, if_pos (And.intro hfid hlast), hfail]
  exact loopRun_skip_all cfg form tbl ft rest1 rest2 _
    (fun e' hm => (hsame e' hm).trans rfl)

/-- Witness for C1: with field b failing its v-num rule on the first
    multi-message element, appending the second same-field element
    changes nothing about the loop run. -/
theorem C1_witness :
    loopRun defaultConfig formB defTable defFileTypes initLoopState [elemB0, elemB1] =
      loopRun defaultConfig formB defTable defFileTypes initLoopState [elemB0] :=
  C1_theorem defaultConfig formB defTable defFileTypes initLoopState elemB0 [elemB1] []
    (by decide) (by decide) (by decide) (by decide)

/-- Claim C2 counterexample: with the class string v-num(space)(space)v-alpha
    and value 123, v-alpha is a rule token of the split (it begins with
    the prefix) and fails on 123, yet validateHandler_ returns true,
    because the token loop stops at the empty token produced by the
    double space.  This falsifies: the result is true only if every rule
    token passes. -/
theorem C2_counterexample :
    validateHandler_ defaultConfig emptyForm defTable defFileTypes
      "v-num  v-alpha".data "123".data = some true ∧
    "v-alpha".data ∈ jsSplit ' ' "v-num  v-alpha".data ∧
    jsSubstring "v-alpha".data 0 (defaultConfig.pfx.length : Int) = defaultConfig.pfx ∧
    evalRuleToken defaultConfig emptyForm defTable defFileTypes "123".data
      "v-alpha".data = some (false, "123".data) := by
  refine ⟨by decide, by decide, by decide, by decide⟩

/-- Claim C2 (amended): the class string is split on single spaces and
    only the tokens before the first empty token are processed; among
    those, exactly the tokens beginning with the configured prefix are
    rule tokens, every processed rule token must pass, and evaluation
    short-circuits to false at the first failing one (the value being
    threaded through, as the file branch may rewrite it). -/
theorem C2_theorem (cfg : Config) (form : Form) (tbl : ExpTable) (ft : FileTable)
    (className value : JsStr) :
    validateHandler_ cfg form tbl ft className value =
      evalSpecC2 cfg form tbl ft className value :=
  vhLoop_eq_spec cfg form tbl ft (jsSplit ' ' className) value

/-- Claim C3 counterexample: the token av-b does not begin with the
    prefix v-, yet splitClassName_ does not use it as-is: the source
    tests indexOf(prefix) at least 0, which is containment anywhere, and
    then drops prefix-length leading characters, yielding method b with
    no arguments instead of the claimed method av with argument b. -/
theorem C3_counterexample :
    ("v-".data.isPrefixOf "av-b".data) = false ∧
    splitClassName_ defaultConfig "av-b".data =
      { method := "b".data, args := [] } ∧
    splitClassNameSpecC3 defaultConfig "av-b".data =
      { method := "av".data, args := ["b".data] } := by
  refine ⟨by decide, by decide, by decide⟩

/-- Claim C3 (amended): parsing removes the first prefix-length
    characters exactly when the token contains the configured prefix
    anywhere (otherwise the token is used as-is); the remainder is split
    on hyphens with empty segments discarded; zero surviving segments
    yield the empty method, one yields that segment as the method with
    no arguments, and more yield the first as the method and the rest,
    in order, as arguments. -/
theorem C3_theorem (cfg : Config) (cn : JsStr) :
    splitClassName_ cfg cn = splitClassNameAmendedC3 cfg cn := by
  unfold splitClassName_ splitClassNameAmendedC3
  dsimp only
  rw [segsAux_eq '-' _ [] (List.not_mem_nil '-'), List.reverse_nil, List.nil_append,
      jsSubstrFrom_nat]
  rfl

/-- The default table maps domain to the domain matcher. -/
theorem defTable_domain : defTable "domain".data = some domainOk := by rfl

/-- The default table maps email-local to the local-part matcher. -/
theorem defTable_emailLocal : defTable "email-local".data = some emailLocalOk := by rfl

set_option maxRecDepth 2000000 in
/-- Claim C4: email validation returns false when the value has no
    at-sign; otherwise it splits at the last at-sign and is true exactly
    when the part after it matches the domain pattern and the part
    before it matches the permissive local-part pattern of one to 255
    characters; in particular user@example.com and a@b@example.com
    validate true while user@ and userexample.com validate false. -/
theorem C4_theorem :
    (∀ v : JsStr, isValidEmail_ defTable v =
      some (v.contains '@' &&
            domainOk (jsSubstrFrom v (jsLastIndexOf '@' v + 1)) &&
            emailLocalOk (jsSubstring v 0 (jsLastIndexOf '@' v)))) ∧
    isValidEmail_ defTable "user@example.com".data = some true ∧
    isValidEmail_ defTable "a@b@example.com".data = some true ∧
    isValidEmail_ defTable "user@".data = some false ∧
    isValidEmail_ defTable "userexample.com".data = some false := by
  refine ⟨?_, by decide, by decide, by decide, by decide⟩
  intro v
  unfold isValidEmail_
  cases hc : v.contains '@' with
  | false =>
    simp
  | true =>
    rw [if_neg (by simp)]
    dsimp only
    unfold isValidRegExp_
    rw [defTable_domain, defTable_emailLocal]
    simp only [Option.map_some']
    cases hdo : domainOk (jsSubstrFrom v (jsLastIndexOf '@' v + 1)) with
    | false => simp
    | true => simp

/-- Claim C5: length validation with a falsy maximum (absent, null or
    zero) accepts exactly the values at least min long; with a truthy
    maximum it accepts exactly when min does not exceed max and the
    length lies in the inclusive interval, so min above max rejects
    every value; the four specification examples hold. -/
theorem C5_theorem :
    (∀ (v : JsStr) (mn : Nat), isValidLength_ v mn none = decide (mn ≤ v.length)) ∧
    (∀ (v : JsStr) (mn : Nat), isValidLength_ v mn (some 0) = decide (mn ≤ v.length)) ∧
    (∀ (v : JsStr) (mn mx : Nat), mx ≠ 0 →
      isValidLength_ v mn (some mx) =
        (decide (mn ≤ mx) && decide (mn ≤ v.length) && decide (v.length ≤ mx))) ∧
    (∀ (v : JsStr) (mn mx : Nat), mx ≠ 0 → mx < mn →
      isValidLength_ v mn (some mx) = false) ∧
    isValidLength_ "abc".data 2 (some 5) = true ∧
    isValidLength_ "a".data 2 (some 5) = false ∧
    isValidLength_ "abcdef".data 2 (some 5) = false ∧
    isValidLength_ "abc".data 5 (some 2) = false := by
  refine ⟨fun v mn => rfl, fun v mn => by simp [isValidLength_],
    fun v mn mx h => by simp [isValidLength_, h],
    fun v mn mx h hlt => ?_, by decide, by decide, by decide, by decide⟩
  simp [isValidLength_, h, Nat.not_le.mpr hlt]

/-- Witness for C5: the min-above-max clause applied at min 7, max 3. -/
theorem C5_witness : isValidLength_ "abcd".data 7 (some 3) = false :=
  C5_theorem.2.2.2.1 "abcd".data 7 3 (by decide) (by decide)

/-- Claim C6: the field name is derived by first dropping the configured
    suffix from the identifier and only then, when the prefixed
    multi-class marker occurs among the space-separated classes,
    truncating from the last hyphen onward; in particular the three
    serial examples with the marker all resolve to serial. -/
theorem C6_theorem :
    (∀ (cfg : Config) (base cls : JsStr),
      (cfg.pfx ++ cfg.multiClass) ∉ jsSplit ' ' cls →
      getFieldName_ cfg (base ++ cfg.sfx) cls = base) ∧
    (∀ (cfg : Config) (b1 b2 cls : JsStr),
      (cfg.pfx ++ cfg.multiClass) ∈ jsSplit ' ' cls →
      '-' ∉ b2 →
      getFieldName_ cfg ((b1 ++ '-' :: b2) ++ cfg.sfx) cls = b1) ∧
    getFieldName_ defaultConfig "serial-0-err".data "v-error v-m".data = "serial".data ∧
    getFieldName_ defaultConfig "serial-1-err".data "v-error v-m v-caps".data =
      "serial".data ∧
    getFieldName_ defaultConfig "serial-2-err".data "v-error v-m v-alphanum".data =
      "serial".data := by
  refine ⟨?_, ?_, by decide, by decide, by decide⟩
  · intro cfg base cls hmem
    unfold getFieldName_
    dsimp only
    have hlen : ((base ++ cfg.sfx).length : Int) - (cfg.sfx.length : Int) =
        ((base.length : Nat) : Int) := by
      push_cast [List.length_append]
      ring
    rw [hlen, jsSubstring_zero_nat, List.take_left, if_neg hmem]
  · intro cfg b1 b2 cls hmem hb2
    unfold getFieldName_
    dsimp only
    have hlen : (((b1 ++ '-' :: b2) ++ cfg.sfx).length : Int) - (cfg.sfx.length : Int) =
        (((b1 ++ '-' :: b2).length : Nat) : Int) := by
      push_cast [List.length_append]
      ring
    rw [hlen, jsSubstring_zero_nat, List.take_left, if_pos hmem,
        jsLastIndexOf_append b1 hb2, jsSubstring_zero_nat, List.take_left]

/-- Witness for C6: the truncation clause applied with base parts abc
    and 7 and a class list carrying the marker v-m. -/
theorem C6_witness :
    getFieldName_ defaultConfig (("abc".data ++ '-' :: "7".data) ++ defaultConfig.sfx)
      "x v-m".data = "abc".data :=
  C6_theorem.2.1 defaultConfig "abc".data "7".data "x v-m".data (by decide) (by decide)

/-- Claim C7: the file and upload rule first strips the two trailing
    characters when the value ends in a double-quote (and leaves other
    values alone), then extracts the substring after the last dot and
    accepts exactly when that extension, lower-cased, is a member of the
    named file-type group; photo.JPG is accepted for group image and
    doc.txt is rejected. -/
theorem C7_theorem :
    (∀ (ft : FileTable) (v g : JsStr) (exts : List JsStr), ft g = some exts →
      isValidFileExtension_ ft v g =
        some (exts.contains ((getFileExtension_ v).map Char.toLower))) ∧
    (∀ (u : JsStr) (c : Char), stripTrailQuote (u ++ [c, '"']) = u) ∧
    (∀ v : JsStr, v.getLast? ≠ some '"' → stripTrailQuote v = v) ∧
    evalRuleToken defaultConfig emptyForm defTable defFileTypes "photo.JPG".data
      "v-file-image".data = some (true, "photo.JPG".data) ∧
    evalRuleToken defaultConfig emptyForm defTable defFileTypes "doc.txt".data
      "v-file-image".data = some (false, "doc.txt".data) := by
  refine ⟨?_, ?_, ?_, by decide, by decide⟩
  · intro ft v g exts h
    simp [isValidFileExtension_, h]
  · intro u c
    have hl : (u ++ [c, '"']).getLast? = some '"' := by
      rw [show u ++ [c, '"'] = (u ++ [c]) ++ ['"'] by simp, List.getLast?_concat]
    unfold stripTrailQuote
    rw [hl]
    have hlen : (((u ++ [c, '"']).length : Int) - 2) = ((u.length : Nat) : Int) := by
      push_cast [List.length_append, List.length_cons, List.length_nil]
      ring
    rw [hlen, jsSubstring_zero_nat]
    exact List.take_left u [c, '"']
  · intro v hv
    unfold stripTrailQuote
    split
    next heq => exact absurd heq hv
    next => rfl

/-- Witness for C7: the membership clause applied at a.png and the
    image group. -/
theorem C7_witness :
    isValidFileExtension_ defFileTypes "a.png".data "image".data =
      some ((["bmp", "gif", "jpg", "jpeg", "png", "tif", "raw"].map String.data).contains
        ((getFileExtension_ "a.png".data).map Char.toLower)) :=
  C7_theorem.1 defFileTypes "a.png".data "image".data
    (["bmp", "gif", "jpg", "jpeg", "png", "tif", "raw"].map String.data) (by rfl)

/-- Claim C8: a rule token whose parsed method is none of the built-in
    switch cases (email, file, upload, len, match, eq, equal, required,
    error, the configured error class, the configured multi-class
    marker) and is not a key of the validation-expression table makes
    evaluation fail with a lookup error (none); it never silently
    passes. -/
theorem C8_theorem (cfg : Config) (form : Form) (tbl : ExpTable) (ft : FileTable)
    (value tok : JsStr)
    (hm : (splitClassName_ cfg tok).method ∉
      ["email".data, "file".data, "upload".data, "len".data, "match".data,
       "eq".data, "equal".data, "required".data, "error".data,
       cfg.errorClass, cfg.multiClass])
    (ht : tbl (splitClassName_ cfg tok).method = none) :
    evalRuleToken cfg form tbl ft value tok = none := by
  simp only [List.mem_cons, List.not_mem_nil, or_false, not_or] at hm
  obtain ⟨h1, h2, h3, h4, h5, h6, h7, h8, h9, h10, h11⟩ := hm
  unfold evalRuleToken
  dsimp only
  rw [if_neg h1, if_neg (not_or.mpr ⟨h2, h3⟩), if_neg h4,
      if_neg (by push_neg; exact ⟨h5, h6, h7⟩),
      if_neg (by push_neg; exact ⟨h8, h9, h10⟩), if_neg h11]
  unfold isValidRegExp_
  rw [ht]
  rfl

/-- Witness for C8: the unknown rule name foo with the default table. -/
theorem C8_witness :
    evalRuleToken defaultConfig emptyForm defTable defFileTypes "x".data
      "v-foo".data = none :=
  C8_theorem defaultConfig emptyForm defTable defFileTypes "x".data "v-foo".data
    (by decide) (by rfl)

/-- Claim C9: one isValid call is a deterministic function of the form,
    configuration, tables and error elements, and its display writes are
    a fixed list applied over the incoming display state, so running it
    a second time with nothing changed returns the same boolean (or
    raises the same error) and leaves exactly the same error elements
    visible. -/
theorem C9_theorem (cfg : Config) (form : Form) (tbl : ExpTable) (ft : FileTable)
    (msgs : List ErrorElem) (d : DisplayMap) :
    isValidModel cfg form tbl ft msgs ((isValidModel cfg form tbl ft msgs d).2) =
      isValidModel cfg form tbl ft msgs d := by
  unfold isValidModel
  dsimp only
  rw [applyWrites_idem]

/-- Claim C10: a field of type radio that resolves to a single control
    rather than a collection is rejected by check_ no matter what,
    because the loop in checkRadio_ iterates up to an undefined length:
    a lone radio button can never validate as true. -/
theorem C10_theorem (cfg : Config) (form : Form) (tbl : ExpTable) (ft : FileTable)
    (name cls : JsStr) (f : FormField)
    (he : form.elements name = some (.single f))
    (hr : f.ftype = "radio".data) :
    check_ cfg form tbl ft name cls = some false := by
  have hg : formGet_ form name = some (.single f) := by
    unfold formGet_
    rw [he]
  unfold check_
  rw [hg]
  dsimp only
  rw [hr]
  rw [if_neg (by decide), if_neg (by decide), if_neg (by decide), if_neg (by decide),
      if_neg (by decide), if_pos rfl]
  rfl

/-- Witness for C10: a checked, enabled, lone radio control named r
    still yields check_ false. -/
theorem C10_witness :
    check_ defaultConfig formR defTable defFileTypes "r".data "v-error".data =
      some false :=
  C10_theorem defaultConfig formR defTable defFileTypes "r".data "v-error".data
    radioFieldChecked (by rfl) (by rfl)
